import Mathlib

/-!
Shallow embedding of `cupy/linalg/einsum.py` (the einsum subscript compiler).

Tensors are modelled as a shape (list of axis sizes) together with an entry
function from multi-indices to integer values; only the values at in-range
multi-indices are meaningful.  Dtypes are modelled as tags: the numeric
content of a cast is delegated to the external tensor engine (out of scope
per the specification), so `astype` only changes the tag.  Python
exceptions (`ValueError`, `numpy.AxisError`, failed `assert` statements)
are modelled with an `Except` error type whose constructors are named
after the raise sites of the source.

Python's `'...'` has already been replaced by the single marker character
`'@'` everywhere the pipeline functions run, exactly as in the source
(line 258), so subscripts are `List Char` values over letters, `'@'` and
`','`.
-/

namespace CupyEinsum

/-- Error kinds, one per raise site of the source file (plus `assertionFailed`
for Python `assert` statements). -/
inductive Err where
  | invalidLabel (c : Char)
  | malformedEllipsis
  | grammarMismatch
  | unknownOutputLabel (c : Char)
  | duplicateOutputLabel (c : Char)
  | multipleOutputEllipsis
  | missingOutputEllipsis
  | fewerOperandsProvided
  | moreOperandsProvided
  | tooManySubscripts (i : Nat)
  | missingEllipsisForExtraDims
  | multipleEllipsisOneOperand
  | diagonalSizeMismatch (label : Char) (shape_a shape_b : Nat)
  | axisListLengthMismatch
  | cannotReshape
  | matmulShapeMismatch
  | axisOutOfRange
  | repeatedAxis
  | assertionFailed
  deriving DecidableEq, Repr

/-- Dtype tags.  Only the tag flow matters for the verified claims; the
numeric promotion table of the external engine is out of scope. -/
inductive DType where
  | bool_ | int64 | float32 | float64
  deriving DecidableEq, Repr

/-- numpy's default accumulator dtype for `ndarray.sum` with no `dtype=`
argument: booleans (and small integers, not modelled) are accumulated in the
platform integer dtype; floating dtypes are kept. -/
def sum_result_dtype : DType → DType
  | .bool_ => .int64
  | d => d

/-- An n-dimensional array: shape plus entry function.  `entry` is total on
`List Nat`; only values at multi-indices bounded by `shape` are relevant. -/
structure NdArray where
  shape : List Nat
  dtype : DType
  entry : List Nat → Int

def NdArray.ndim (a : NdArray) : Nat := a.shape.length

/-- Product of a list of axis sizes (`get_pi` in the source). -/
def get_pi : List Nat → Nat
  | [] => 1
  | n :: rest => n * get_pi rest

/-- Row-major flat offset of a multi-index. -/
def ravel : List Nat → List Nat → Nat
  | _ :: ss, i :: is => i * get_pi ss + ravel ss is
  | _, _ => 0

/-- Row-major multi-index of a flat offset. -/
def unravel : List Nat → Nat → List Nat
  | [], _ => []
  | _ :: ss, k => (k / get_pi ss) :: unravel ss (k % get_pi ss)

/-- `ndarray.reshape`: requires equal element counts, keeps the row-major
order of entries. -/
def NdArray.reshape (a : NdArray) (ns : List Nat) : Except Err NdArray :=
  if get_pi ns = get_pi a.shape then
    .ok ⟨ns, a.dtype, fun idx => a.entry (unravel a.shape (ravel ns idx))⟩
  else .error .cannotReshape

/-- `ndarray.transpose(order)`: new axis `j` is old axis `order[j]`.  Only
called on genuine permutations of `range(ndim)` by the source. -/
def NdArray.transpose (a : NdArray) (order : List Nat) : NdArray :=
  ⟨order.map (fun i => a.shape.getD i 0), a.dtype,
   fun idx => a.entry ((List.range a.ndim).map (fun k => idx.getD (List.indexOf k order) 0))⟩

/-- `numpy.core.numeric.normalize_axis_index`: negative axes count from the
end; out-of-range axes raise `AxisError`. -/
def normalize_axis (ax : Int) (nd : Nat) : Except Err Nat :=
  if 0 ≤ ax ∧ ax < (nd : Int) then .ok ax.toNat
  else if ax < 0 ∧ 0 ≤ ax + (nd : Int) then .ok (ax + (nd : Int)).toNat
  else .error .axisOutOfRange

def normalize_axis_list : List Int → Nat → Except Err (List Nat)
  | [], _ => .ok []
  | ax :: rest, nd =>
    match normalize_axis ax nd with
    | .error e => .error e
    | .ok x =>
      match normalize_axis_list rest nd with
      | .error e => .error e
      | .ok xs => .ok (x :: xs)

/-- Decidable duplicate test, used where numpy rejects repeated axes. -/
def hasDup : List Nat → Bool
  | [] => false
  | x :: xs => x ∈ xs || hasDup xs

/-- `numpy.core.numeric.normalize_axis_tuple` with `allow_duplicate=False`. -/
def normalize_axis_tuple (axes : List Int) (nd : Nat) : Except Err (List Nat) :=
  match normalize_axis_list axes nd with
  | .error e => .error e
  | .ok xs => if hasDup xs then .error .repeatedAxis else .ok xs

/-- Remove the axes at list positions `i` and `j` (`i ≠ j`), higher position
first so the lower one stays valid. -/
def removeTwo (l : List Nat) (i j : Nat) : List Nat :=
  (l.eraseIdx (max i j)).eraseIdx (min i j)

/-- Insert the value `v` back at positions `i` and `j` (`i ≠ j`); inverse of
`removeTwo` on the index side. -/
def insertTwo (idx : List Nat) (i j : Nat) (v : Nat) : List Nat :=
  (idx.insertIdx (min i j) v).insertIdx (max i j) v

/-- `ndarray.diagonal(0, axis1, axis2)` (offset 0, normalized axes): the two
axes are removed and the diagonal axis of length `min` is appended last. -/
def NdArray.diagonal (a : NdArray) (axis1 axis2 : Nat) : NdArray :=
  ⟨removeTwo a.shape axis1 axis2 ++ [min (a.shape.getD axis1 0) (a.shape.getD axis2 0)],
   a.dtype,
   fun idx => a.entry (insertTwo idx.dropLast axis1 axis2 (idx.getLastD 0))⟩

/-- `cupy.rollaxis(a, ax, start)`: numpy's roll-to-position semantics. -/
def rollaxis (a : NdArray) (ax : Int) (start : Nat) : Except Err NdArray :=
  match normalize_axis ax a.ndim with
  | .error e => .error e
  | .ok axis =>
    if a.ndim + 1 ≤ start then .error .axisOutOfRange
    else
      let start' := if axis < start then start - 1 else start
      if axis = start' then .ok a
      else .ok (a.transpose ((((List.range a.ndim).filter (· ≠ axis))).insertIdx start' axis))

/-- Sum of `f 0 + ... + f (n-1)`. -/
def sumTo (n : Nat) (f : Nat → Int) : Int := ((List.range n).map f).sum

/-- Sum an array along one (normalized, in-range) axis. -/
def NdArray.sumAxis (a : NdArray) (ax : Nat) : NdArray :=
  ⟨a.shape.eraseIdx ax, a.dtype,
   fun idx => sumTo (a.shape.getD ax 0) (fun j => a.entry (idx.insertIdx ax j))⟩

/-- `ndarray.sum(axis=tuple(axes))`: normalize the axes (rejecting
out-of-range and repeated axes as numpy does), then sum the distinct axes
simultaneously — realized as a fold over the axes in decreasing order so
that removing one axis leaves the remaining (smaller) axis numbers valid.
The accumulator dtype follows numpy's default promotion. -/
def NdArray.sum (a : NdArray) (axes : List Int) : Except Err NdArray :=
  match normalize_axis_tuple axes a.ndim with
  | .error e => .error e
  | .ok xs =>
    let sorted := List.insertionSort (fun x y => y ≤ x) xs
    .ok { sorted.foldl (fun t ax => t.sumAxis ax) a with dtype := sum_result_dtype a.dtype }

/-- `ndarray.astype(d)`: the numeric conversion itself is delegated to the
external tensor engine (out of scope), so only the dtype tag changes. -/
def NdArray.astype (a : NdArray) (d : DType) : NdArray := { a with dtype := d }

/-- `cupy.ones(n)`. -/
def cupy_ones (n : Nat) : NdArray := ⟨[n], .float64, fun _ => 1⟩

/-- `cupy.matmul` as used by the source: both arguments have been reshaped
to rank 3, so only the rank-3 stacked-matrix case with broadcasting of the
single batch axis is needed; other shapes are rejected. -/
def matmul (a b : NdArray) : Except Err NdArray :=
  match a.shape, b.shape with
  | [p, m, n], [q, n2, k] =>
    if n = n2 ∧ (p = q ∨ p = 1 ∨ q = 1) then
      .ok ⟨[max p q, m, k], a.dtype,
        fun idx =>
          match idx with
          | [s, i, j] =>
            sumTo n (fun t =>
              a.entry [if p = 1 then 0 else s, i, t] *
              b.entry [if q = 1 then 0 else s, t, j])
          | _ => 0⟩
    else .error .matmulShapeMismatch
  | _, _ => .error .matmulShapeMismatch

/-! ### String-level helpers (Python `str` operations on `List Char`) -/

/-- `str.find(c)`: index of the first occurrence, or `-1`. -/
def pyFindAux : List Char → Char → Nat → Int
  | [], _, _ => -1
  | x :: xs, c, i => if x = c then (i : Int) else pyFindAux xs c (i + 1)

def pyFind (l : List Char) (c : Char) : Int := pyFindAux l c 0

/-- `str.rfind(c)`: index of the last occurrence, or `-1`. -/
def pyRFindAux : List Char → Char → Nat → Int → Int
  | [], _, _, acc => acc
  | x :: xs, c, i, acc => pyRFindAux xs c (i + 1) (if x = c then (i : Int) else acc)

def pyRFind (l : List Char) (c : Char) : Int := pyRFindAux l c 0 (-1)

/-- Clamp a Python slice bound (possibly negative) to a list position. -/
def pyIdx (len : Nat) (j : Int) : Nat :=
  if j < 0 then (max 0 ((len : Int) + j)).toNat else min j.toNat len

/-- Python `s[:i] + s[i+1:]` for an arbitrary (possibly negative) int `i`. -/
def pyRemoveAt (l : List Char) (i : Int) : List Char :=
  l.take (pyIdx l.length i) ++ l.drop (pyIdx l.length (i + 1))

/-- The distinct elements of a list in order of first occurrence.  Python
iterates `set(...)` in an unspecified order; this embedding fixes the
first-occurrence order (the claims proved below do not depend on the
iteration order for the inputs they involve). -/
def firstDedupAux : List Char → List Char → List Char
  | [], _ => []
  | c :: rest, seen =>
    if c ∈ seen then firstDedupAux rest seen else c :: firstDedupAux rest (c :: seen)

def firstDedup (l : List Char) : List Char := firstDedupAux l []

/-- Generic duplicate test. -/
def hasDupChar : List Char → Bool
  | [] => false
  | x :: xs => x ∈ xs || hasDupChar xs

/-! ### `calc_single_view` (diagonal reducer, source lines 11-61) -/

/-- Axis list for one repeated label: the positions of `label` in the
subscript without `'@'`, positions at or after the ellipsis expressed as
negative offsets from the end (source lines 39-45). -/
def subscript_axes (label : Char) (no_at : List Char) (ellipsis_pos : Int) : List Int :=
  (List.range no_at.length).filterMap (fun i =>
    if no_at.getD i ' ' = label then
      some (if ellipsis_pos = -1 ∨ (i : Int) < ellipsis_pos then (i : Int)
            else (i : Int) - (no_at.length : Int))
    else none)

/-- Inner loop of `calc_single_view` (source lines 48-60): fold the pairwise
diagonal of axis `ax0` against each later occurrence, rightmost first. -/
def csv_inner (label : Char) (ax0 : Nat) (ellipsis_pos : Int) :
    List Nat → NdArray × List Char → Except Err (NdArray × List Char)
  | [], st => .ok st
  | axis :: rest, (result, subscript) =>
    let shape_a := result.shape.getD axis 0
    let shape_b := result.shape.getD ax0 0
    if shape_a ≠ shape_b then .error (.diagonalSizeMismatch label shape_a shape_b)
    else
      let r1 := result.diagonal axis ax0
      match rollaxis r1 (-1) ax0 with
      | .error e => .error e
      | .ok r2 =>
        let axis2 : Int :=
          if ellipsis_pos ≠ -1 ∧ ellipsis_pos < (axis : Int) then
            (axis : Int) - ((r2.ndim : Int) - (subscript.length : Int) + 1)
          else (axis : Int)
        csv_inner label ax0 ellipsis_pos rest (r2, pyRemoveAt subscript axis2)

/-- Outer loop of `calc_single_view` (source lines 36-60), iterating over the
distinct labels.  `subscript0` is the original subscript, from which the
occurrence counts, positions and ellipsis position were computed once. -/
def csv_outer (subscript0 no_at : List Char) (ellipsis_pos : Int) :
    List Char → NdArray × List Char → Except Err (NdArray × List Char)
  | [], st => .ok st
  | label :: labels, (result, subscript) =>
    if subscript0.count label = 1 then
      csv_outer subscript0 no_at ellipsis_pos labels (result, subscript)
    else
      match normalize_axis_tuple (subscript_axes label no_at ellipsis_pos) result.ndim with
      | .error e => .error e
      | .ok axes_to_diag =>
        match csv_inner label (axes_to_diag.headD 0) ellipsis_pos
            (axes_to_diag.tail.reverse) (result, subscript) with
        | .error e => .error e
        | .ok st2 => csv_outer subscript0 no_at ellipsis_pos labels st2

/-- `calc_single_view`: collapse every label appearing more than once into a
single axis by repeated diagonal extraction. -/
def calc_single_view (ioperand : NdArray) (subscript : List Char) :
    Except Err (NdArray × List Char) :=
  if '@' ∉ subscript ∧ ioperand.ndim ≠ subscript.length then .error .assertionFailed
  else if '@' ∈ subscript ∧ ioperand.ndim < (subscript.filter (· ≠ '@')).length then
    .error .assertionFailed
  else
    let no_at := subscript.filter (· ≠ '@')
    csv_outer subscript no_at (pyFind subscript '@') (firstDedup no_at) (ioperand, subscript)

/-! ### `calc_summed_view` (summation reducer, source lines 64-100) -/

/-- Ellipsis-relative axis numbering shared by the reducers (positions at or
after the ellipsis become negative offsets from the end). -/
def offset_of (ellipsis_pos : Int) (len : Nat) (i : Nat) : Int :=
  if ellipsis_pos = -1 ∨ (i : Int) < ellipsis_pos then (i : Int)
  else (i : Int) - (len : Int)

/-- `calc_summed_view`: sum away the labels present in the input subscript
but absent from the output subscript. -/
def calc_summed_view (ioperand : NdArray) (input_subscript output_subscript : List Char) :
    Except Err (NdArray × List Char) :=
  if hasDupChar input_subscript then .error .assertionFailed
  else if hasDupChar output_subscript then .error .assertionFailed
  else if ¬ output_subscript.all (· ∈ input_subscript) then .error .assertionFailed
  else
    let no_at := input_subscript.filter (· ≠ '@')
    let label_to_summed := no_at.filter (· ∉ output_subscript)
    let ellipsis_pos := pyFind input_subscript '@'
    let axes_to_summed : List Int :=
      (List.range no_at.length).filterMap (fun i =>
        if no_at.getD i ' ' ∈ label_to_summed then
          some (offset_of ellipsis_pos no_at.length i)
        else none)
    let new_subscript := label_to_summed.foldl (fun s c => s.filter (· ≠ c)) input_subscript
    if axes_to_summed.isEmpty then .ok (ioperand, new_subscript)
    else
      match ioperand.sum axes_to_summed with
      | .error e => .error e
      | .ok summed => .ok (summed.astype ioperand.dtype, new_subscript)

/-! ### `_moveaxis` and `calc_transposed_view` (source lines 104-157) -/

/-- Lexicographic order on pairs, as Python compares tuples in `sorted`. -/
def pairLe (p q : Nat × Nat) : Prop := p.1 < q.1 ∨ (p.1 = q.1 ∧ p.2 ≤ q.2)

instance : DecidableRel pairLe := fun p q =>
  inferInstanceAs (Decidable (p.1 < q.1 ∨ (p.1 = q.1 ∧ p.2 ≤ q.2)))

/-- `_moveaxis(a, source, destination)`: move the listed source axes to the
listed destination positions, keeping other axes in order.  Python's
`list.insert` clamps an over-long position to an append, while
`List.insertIdx` ignores it; every call site stays in range. -/
def _moveaxis (a : NdArray) (src dst : List Int) : Except Err NdArray :=
  match normalize_axis_tuple src a.ndim with
  | .error e => .error e
  | .ok src2 =>
    match normalize_axis_tuple dst a.ndim with
    | .error e => .error e
    | .ok dst2 =>
      if src2.length ≠ dst2.length then .error .axisListLengthMismatch
      else
        let order0 := (List.range a.ndim).filter (· ∉ src2)
        let order := (List.insertionSort pairLe (dst2.zip src2)).foldl
          (fun o p => o.insertIdx p.1 p.2) order0
        .ok (a.transpose order)

/-- `calc_transposed_view`: permute axes so the subscript matches the output
subscript; identity when they already agree. -/
def calc_transposed_view (ioperand : NdArray) (input_subscript output_subscript : List Char) :
    Except Err NdArray :=
  if hasDupChar output_subscript then .error .assertionFailed
  else if ¬ (input_subscript.all (· ∈ output_subscript) ∧
             output_subscript.all (· ∈ input_subscript)) then .error .assertionFailed
  else if input_subscript = output_subscript then .ok ioperand
  else
    let ellipsis_pos := pyFind input_subscript '@'
    let pairs : List (Int × Int) :=
      (List.range output_subscript.length).filterMap (fun pos =>
        let label := output_subscript.getD pos ' '
        if label = '@' then none
        else
          let label_pos_input := pyFind input_subscript label
          some ((pos : Int),
            if ellipsis_pos = -1 ∨ label_pos_input < ellipsis_pos then label_pos_input
            else label_pos_input - (input_subscript.length : Int)))
    _moveaxis ioperand (pairs.map Prod.snd) (pairs.map Prod.fst)

/-! ### `move_broadcast_axes_to_front` (source lines 160-173) -/

def move_broadcast_one (operand : NdArray) (subscript : List Char) :
    Except Err (NdArray × List Char) :=
  if '@' ∈ subscript then
    let ellipsis_pos := (pyFind subscript '@').toNat
    let ellipsis_rpos : Int := pyRFind subscript '@' - 1
    let src : List Int := (List.range ellipsis_pos).map (fun i => (i : Int))
    let dst : List Int :=
      (List.range ellipsis_pos).map (fun i => ((i : Int) - (ellipsis_pos : Int)) - ellipsis_rpos)
    match _moveaxis operand src dst with
    | .error e => .error e
    | .ok op2 => .ok (op2, '@' :: subscript.filter (· ≠ '@'))
  else .ok (operand, subscript)

/-- `move_broadcast_axes_to_front`, over the zipped (operand, subscript)
pairs (the driver always passes lists of equal length). -/
def move_broadcast_axes_to_front : List (NdArray × List Char) →
    Except Err (List (NdArray × List Char))
  | [] => .ok []
  | (op, sub) :: rest =>
    match move_broadcast_one op sub with
    | .error e => .error e
    | .ok x =>
      match move_broadcast_axes_to_front rest with
      | .error e => .error e
      | .ok xs => .ok (x :: xs)

/-! ### `calc_combined_view` (pairwise combiner, source lines 183-219) -/

/-- One iteration of the combiner loop (source lines 197-214): flatten the
operand to rank 3 as (broadcast block, 1, rest block), fold it into the
running result by batched matrix multiplication, and re-flatten. -/
def combine_step (st : NdArray × List Nat × List Nat × Bool) (x : NdArray × List Char) :
    Except Err (NdArray × List Nat × List Nat × Bool) :=
  let (result, a_shape_stack, b_shape_stack, is_first) := st
  let (operand0, subscript) := x
  let step1 : Except Err (NdArray × List Nat × List Nat) :=
    if subscript.headD ' ' = '@' then
      -- validation guarantees `len(subscript) ≤ ndim + 1` here, so Python's
      -- `operand.ndim - len(subscript) + 1` is the following Nat
      let broadcasted_dims := operand0.ndim + 1 - subscript.length
      let aPart := operand0.shape.take broadcasted_dims
      let a_stack2 := if a_shape_stack.length < aPart.length then aPart else a_shape_stack
      let b_shape := get_pi (operand0.shape.drop broadcasted_dims)
      match operand0.reshape [get_pi aPart, 1, b_shape] with
      | .error e => .error e
      | .ok op2 => .ok (op2, a_stack2, b_shape_stack ++ operand0.shape.drop broadcasted_dims)
    else
      match operand0.reshape [1, 1, get_pi operand0.shape] with
      | .error e => .error e
      | .ok op2 => .ok (op2, a_shape_stack, b_shape_stack ++ operand0.shape)
  match step1 with
  | .error e => .error e
  | .ok (op2, aS, bS) =>
    match (if is_first then .ok op2 else matmul result op2 : Except Err NdArray) with
    | .error e => .error e
    | .ok r2 =>
      match r2.reshape [r2.shape.getD 0 0, r2.shape.getD 1 0 * r2.shape.getD 2 0, 1] with
      | .error e => .error e
      | .ok r3 => .ok (r3, aS, bS, false)

def foldCombine : List (NdArray × List Char) → NdArray × List Nat × List Nat × Bool →
    Except Err (NdArray × List Nat × List Nat × Bool)
  | [], st => .ok st
  | x :: rest, st =>
    match combine_step st x with
    | .error e => .error e
    | .ok st2 => foldCombine rest st2

/-- `calc_combined_view`: fold the operand list into one operand; a
single-element list is returned unchanged. -/
def calc_combined_view (views : List (NdArray × List Char)) : Except Err (NdArray × List Char) :=
  match views with
  | [v] => .ok v
  | _ =>
    match foldCombine views (cupy_ones 1, [], [], true) with
    | .error e => .error e
    | .ok (result, a_shape_stack, b_shape_stack, _) =>
      let subscript := (views.map Prod.snd).flatten
      let subscript2 := if '@' ∈ subscript then '@' :: subscript.filter (· ≠ '@') else subscript
      match result.reshape (a_shape_stack ++ b_shape_stack) with
      | .error e => .error e
      | .ok r => .ok (r, subscript2)

/-! ### Subscript grammar, validation and the driver (source lines 222-334) -/

/-- `string.ascii_letters` membership. -/
def isAsciiLetter (c : Char) : Bool :=
  ('a' ≤ c && c ≤ 'z') || ('A' ≤ c && c ≤ 'Z')

/-- Characters admitted by the driver's alphabet check (source line 244):
letters plus the characters of `'->,.'`. -/
def isAllowedChar (c : Char) : Bool :=
  isAsciiLetter c || c = '-' || c = '>' || c = ',' || c = '.'

/-- `str.replace('...', '@')`: left-to-right, non-overlapping. -/
def replaceEllipsis : List Char → List Char
  | '.' :: '.' :: '.' :: rest => '@' :: replaceEllipsis rest
  | c :: rest => c :: replaceEllipsis rest
  | [] => []

/-- Character class of the input part of the grammar regex
`^([a-zA-Z@,]+)(->[a-zA-Z@]*)?$`. -/
def isInputClass (c : Char) : Bool := isAsciiLetter c || c = '@' || c = ','

/-- Character class of the output part of the grammar regex. -/
def isOutputClass (c : Char) : Bool := isAsciiLetter c || c = '@'

/-- `re.match('^([a-zA-Z@,]+)(->[a-zA-Z@]*)?$', s)` on a string whose
characters are already restricted to letters, `'@'`, `','`, `'-'`, `'>'`
(guaranteed by the earlier alphabet and dot checks): the greedy first group
is the maximal input-class run, after which either the string ends or an
`'->'` followed by an output-class run must close it. -/
def grammarMatch (l : List Char) : Option (List Char × Option (List Char)) :=
  let inp := l.takeWhile isInputClass
  let rest := l.drop inp.length
  if inp.isEmpty then none
  else
    match rest with
    | [] => some (inp, none)
    | '-' :: '>' :: out => if out.all isOutputClass then some (inp, some out) else none
    | _ => none

/-- Models `re.match('/^[a-zA-Z]*@[a-zA-Z]*?$/', s)` (source lines 285 and
316): the pattern demands a literal `'/'` as the first character immediately
followed by the start-of-string anchor, which no string satisfies, so the
match never succeeds. -/
def brokenEllipsisRegexMatches (_ : List Char) : Bool := false

/-- `get_dummy_labels` (source lines 222-228): labels other than `'@'`
occurring at least twice, as a duplicate-free list. -/
def get_dummy_labels (label_list : List Char) : List Char :=
  (firstDedup label_list).filter (fun c => c ≠ '@' && 2 ≤ label_list.count c)

/-- Implicit output subscript (source lines 292-295): the sorted distinct
non-dummy labels (with `'@'` never dummy) of the concatenated inputs. -/
def implicit_output (input_subscripts : List Char) : List Char :=
  let label_list := input_subscripts.filter (· ≠ ',')
  let out_label_list := (firstDedup label_list).filter (fun c => c ∉ get_dummy_labels label_list)
  List.insertionSort (fun a b => a ≤ b) out_label_list

/-- `str.split(',')`. -/
def splitOnCommaAux : List Char → List Char → List (List Char)
  | [], acc => [acc.reverse]
  | c :: rest, acc =>
    if c = ',' then acc.reverse :: splitOnCommaAux rest []
    else splitOnCommaAux rest (c :: acc)

def splitOnComma (l : List Char) : List (List Char) := splitOnCommaAux l []

/-- Lines 243-295 of the driver: strip spaces, check the alphabet, replace
`'...'` by `'@'`, reject stray dots, match the grammar, and determine the
output subscript (with the explicit-output checks, or the implicit
inference).  The set-difference pick on lines 246 and 274 is modelled as the
first offending character in scan order (Python set order is unspecified).
Returns the comma-separated input part and the output subscript. -/
def parse_stage (s : String) : Except Err (List Char × List Char) :=
  let l0 := s.toList.filter (· ≠ ' ')
  match l0.find? (fun c => !(isAllowedChar c)) with
  | some c => .error (.invalidLabel c)
  | none =>
    let l1 := replaceEllipsis l0
    if '.' ∈ l1 then .error .malformedEllipsis
    else
      match grammarMatch l1 with
      | none => .error .grammarMismatch
      | some (inp, none) => .ok (inp, implicit_output inp)
      | some (inp, some outp) =>
        match outp.find? (fun c => !(c ∈ inp : Bool)) with
        | some c => .error (.unknownOutputLabel c)
        | none =>
          match (firstDedup outp).find? (fun c => !(outp.count c = 1 : Bool)) with
          | some c => .error (.duplicateOutputLabel c)
          | none =>
            if '@' ∈ outp ∧ brokenEllipsisRegexMatches outp then .error .multipleOutputEllipsis
            else if '@' ∈ inp ∧ '@' ∉ outp then .error .missingOutputEllipsis
            else .ok (inp, outp)

/-- Lines 297-303: the operand/subscript count checks. -/
def count_stage (inp : List Char) (nops : Nat) : Except Err (List (List Char)) :=
  let input_subscripts_list := splitOnComma inp
  if input_subscripts_list.length < nops then .error .fewerOperandsProvided
  else if nops < input_subscripts_list.length then .error .moreOperandsProvided
  else .ok input_subscripts_list

/-- Lines 305-322: per-operand rank checks, the (never-firing) per-operand
ellipsis-multiplicity check, and the per-operand diagonal reduction. -/
def operand_stage : List (List Char) → List NdArray → Nat →
    Except Err (List (NdArray × List Char))
  | [], _, _ => .ok []
  | _, [], _ => .ok []
  | sub :: subs, op :: ops, i =>
    if op.ndim < (sub.filter (· ≠ '@')).length then .error (.tooManySubscripts i)
    else if '@' ∉ sub ∧ sub.length < op.ndim then .error .missingEllipsisForExtraDims
    else if '@' ∈ sub ∧ brokenEllipsisRegexMatches sub then .error .multipleEllipsisOneOperand
    else
      match calc_single_view op sub with
      | .error e => .error e
      | .ok v =>
        match operand_stage subs ops (i + 1) with
        | .error e => .error e
        | .ok vs => .ok (v :: vs)

/-- Lines 324-334: combination (for two or more operands), the post-combine
diagonal reduction, summation and final transposition. -/
def pipeline_stage (views : List (NdArray × List Char)) (output_subscript : List Char) :
    Except Err NdArray :=
  let combined : Except Err (NdArray × List Char) :=
    if 2 ≤ views.length then
      match move_broadcast_axes_to_front views with
      | .error e => .error e
      | .ok views2 =>
        match calc_combined_view views2 with
        | .error e => .error e
        | .ok (r, sub) => calc_single_view r sub
    else .ok (views.getD 0 (cupy_ones 1, []))
  match combined with
  | .error e => .error e
  | .ok (result, subscript) =>
    match calc_summed_view result subscript output_subscript with
    | .error e => .error e
    | .ok (r2, sub2) => calc_transposed_view r2 sub2 output_subscript

/-- The einsum driver (source lines 231-334), string-subscript calling
convention.  The common-result-type resolution and casting of the operands
(source lines 250-256) is delegated to the external tensor engine and out of
scope for this model; it is modelled as the identity on the operands. -/
def einsum (s : String) (ioperands : List NdArray) : Except Err NdArray :=
  match parse_stage s with
  | .error e => .error e
  | .ok (inp, outp) =>
    match count_stage inp ioperands.length with
    | .error e => .error e
    | .ok lst =>
      match operand_stage lst ioperands 0 with
      | .error e => .error e
      | .ok views => pipeline_stage views outp

/-! ### Theorems -/

/-- C8: for every operand and every pair of equal subscripts (satisfying the
function's duplicate-free precondition, stated by its `assert`), the
transposer returns the operand itself unchanged: no transpose, no copy. -/
theorem calc_transposed_view_identity (ioperand : NdArray) (s : List Char)
    (h : hasDupChar s = false) :
    calc_transposed_view ioperand s s = .ok ioperand := by
  unfold calc_transposed_view
  simp [h, List.all_eq_true]

/-- Witness for C8 at a concrete operand and subscript. -/
theorem calc_transposed_view_identity_witness :
    hasDupChar ['i', 'j'] = false ∧
      calc_transposed_view ⟨[2, 3], .int64, fun _ => 7⟩ ['i', 'j'] ['i', 'j'] =
        .ok ⟨[2, 3], .int64, fun _ => 7⟩ :=
  ⟨by decide, calc_transposed_view_identity ⟨[2, 3], .int64, fun _ => 7⟩ ['i', 'j'] (by decide)⟩

/-- C5 (code bug): a subscript with two ellipses in one operand, such as
`einsum("i...j...", x)` with `x` of shape (2,2), is not rejected with the
multiple-ellipsis error: the guarding regex `'/^[a-zA-Z]*@[a-zA-Z]*?$/'`
(source line 316) can never match, so the call instead trips the
duplicate-free `assert` of `calc_summed_view` (an `AssertionError`). -/
theorem einsum_multiple_ellipsis_not_rejected :
    einsum "i...j..." [⟨[2, 2], .int64, fun _ => 0⟩] = .error .assertionFailed ∧
      Err.assertionFailed ≠ Err.multipleEllipsisOneOperand := by
  exact ⟨rfl, by decide⟩

/-- C1 (code bug): with batch prefixes (1,) and (3,) — broadcast-compatible
but not identical — `einsum("...ij,...jk->...ik", a, b)` does not return the
batched matrix product: the combiner keeps the first maximal-rank batch
prefix `[1]` for the final reshape while the matmul broadcast produced a
batch of 3, so the final reshape fails (`ValueError: cannot reshape`). -/
theorem einsum_broadcast_batch_prefix_reshape_fails :
    einsum "...ij,...jk->...ik"
        [⟨[1, 1, 1], .int64, fun _ => 1⟩, ⟨[3, 1, 1], .int64, fun _ => 1⟩] =
      .error .cannotReshape := by
  rfl

/-- C9 counterexample: `einsum("i->......", x)` has an explicit output
subscript containing the ellipsis marker twice, yet it is rejected by the
unknown-output-label check (the ellipsis marker of the output never appears
in the input), not by the duplicate-output-label check. -/
theorem einsum_output_ellipsis_unknown_label_first :
    einsum "i->......" [⟨[2], .int64, fun _ => 0⟩] = .error (.unknownOutputLabel '@') ∧
      ¬ ∃ c, einsum "i->......" [⟨[2], .int64, fun _ => 0⟩] =
          .error (.duplicateOutputLabel c) := by
  refine ⟨rfl, ?_⟩
  rintro ⟨c, h⟩
  rw [show einsum "i->......" [⟨[2], .int64, fun _ => 0⟩] =
        .error (.unknownOutputLabel '@') from rfl] at h
  simp at h

/-- C6: once the subscripts string has passed parsing and output-subscript
determination, a mismatch between the number of comma-separated operand
subscripts and the number of operands always fails with the dedicated
count-mismatch error, and the two directions of the mismatch receive
distinct errors (source lines 297-303). -/
theorem einsum_operand_count_mismatch (s : String) (ops : List NdArray)
    (inp outp : List Char) (hp : parse_stage s = .ok (inp, outp))
    (hc : (splitOnComma inp).length ≠ ops.length) :
    einsum s ops =
      .error (if (splitOnComma inp).length < ops.length then Err.fewerOperandsProvided
              else Err.moreOperandsProvided) ∧
      Err.fewerOperandsProvided ≠ Err.moreOperandsProvided := by
  refine ⟨?_, by decide⟩
  unfold einsum
  rw [hp]
  unfold count_stage
  rcases Nat.lt_trichotomy (splitOnComma inp).length ops.length with h | h | h
  · simp [h]
  · exact absurd h hc
  · simp [h, Nat.not_lt.mpr (Nat.le_of_lt h), Nat.lt_asymm h]

/-- Witness for C6: one operand supplied for the two-operand subscript
string `"ij,jk"` (and, through `ops := []`, the statement also covers zero
operands). -/
theorem einsum_operand_count_mismatch_witness :
    parse_stage "ij,jk" = .ok ("ij,jk".toList, "ik".toList) ∧
      (splitOnComma "ij,jk".toList).length ≠ 1 ∧
      einsum "ij,jk" [⟨[2, 2], .int64, fun _ => 0⟩] =
        .error (if (splitOnComma "ij,jk".toList).length < 1 then Err.fewerOperandsProvided
                else Err.moreOperandsProvided) ∧
      Err.fewerOperandsProvided ≠ Err.moreOperandsProvided := by
  refine ⟨rfl, by decide, ?_⟩
  exact einsum_operand_count_mismatch "ij,jk" [⟨[2, 2], .int64, fun _ => 0⟩]
    "ij,jk".toList "ik".toList rfl (by decide)

/-- An ASCII letter is none of the special characters of the grammar. -/
theorem asciiLetter_ne (c : Char) (h : isAsciiLetter c = true) :
    c ≠ ' ' ∧ c ≠ '.' ∧ c ≠ ',' ∧ c ≠ '-' ∧ c ≠ '>' ∧ c ≠ '@' := by
  refine ⟨?_, ?_, ?_, ?_, ?_, ?_⟩ <;>
    exact fun he => absurd (he ▸ h) (by decide)

/-- `replaceEllipsis` keeps a head character that is not a dot. -/
theorem replaceEllipsis_cons_ne (a : Char) (t : List Char) (ha : a ≠ '.') :
    replaceEllipsis (a :: t) = a :: replaceEllipsis t := by
  rw [replaceEllipsis.eq_def]
  split
  · next _ rest heq =>
    injection heq with h1 _
    exact absurd h1 ha
  · next _ c rest _ heq =>
    injection heq with h1 h2
    rw [h1, h2]
  · next _ heq => exact absurd heq (by simp)

/-- `replaceEllipsis` is the identity on dot-free strings. -/
theorem replaceEllipsis_eq_self (l : List Char) (h : '.' ∉ l) : replaceEllipsis l = l := by
  induction l with
  | nil => rfl
  | cons a t ih =>
    have ha : a ≠ '.' := fun he => h (he ▸ List.mem_cons_self a t)
    rw [replaceEllipsis_cons_ne a t ha, ih (fun hm => h (List.mem_cons_of_mem a hm))]

/-- C4: binding one label to two axes of different sizes fails with the
diagonal-size-mismatch error, which names the offending label and the two
conflicting sizes: for any letter `c` and any operand of shape `(m, n)` with
`m ≠ n`, `einsum("cc", x)` fails with exactly that error (source lines
48-55). -/
theorem einsum_diagonal_size_mismatch (c : Char) (m n : Nat) (d : DType)
    (f : List Nat → Int) (hc : isAsciiLetter c = true) (hmn : m ≠ n) :
    einsum (String.mk [c, c]) [⟨[m, n], d, f⟩] =
      .error (.diagonalSizeMismatch c n m) := by
  obtain ⟨h1, h2, h3, h4, h5, h6⟩ := asciiLetter_ne c hc
  have hba : '@' ≠ c := Ne.symm h6
  have hda : '.' ≠ c := Ne.symm h2
  have hnm : n ≠ m := Ne.symm hmn
  have hallowed : isAllowedChar c = true := by simp [isAllowedChar, hc]
  have hinput : isInputClass c = true := by simp [isInputClass, hc]
  have hrep : replaceEllipsis [c, c] = [c, c] :=
    replaceEllipsis_eq_self _ (by simp [hda])
  unfold einsum parse_stage count_stage operand_stage calc_single_view
  simp [h1, h2, h3, h4, h5, h6, hba, hallowed, hinput, hrep, implicit_output,
    get_dummy_labels, firstDedup, firstDedupAux, splitOnComma, splitOnCommaAux,
    grammarMatch, List.takeWhile, pyFind, pyFindAux, subscript_axes,
    csv_outer, csv_inner, normalize_axis_tuple, normalize_axis_list,
    normalize_axis, hasDup, hnm, List.count_cons, pipeline_stage]
  simp [hda, h3, h6, hba, hnm, splitOnCommaAux, csv_outer, csv_inner,
    List.count_cons, subscript_axes, pyFindAux, normalize_axis_tuple,
    normalize_axis_list, normalize_axis, hasDup, firstDedupAux, NdArray.ndim]
  simp [List.range_succ, normalize_axis_list, normalize_axis, hasDup,
    csv_inner, hnm]

/-- Witness for C4: the spec's own example, `einsum("ii", x)` with `x` of
shape (2, 3); the error names the label `'i'` and the sizes 3 and 2. -/
theorem einsum_diagonal_size_mismatch_witness :
    isAsciiLetter 'i' = true ∧ (2 : Nat) ≠ 3 ∧
      einsum (String.mk ['i', 'i']) [⟨[2, 3], .int64, fun _ => 0⟩] =
        .error (.diagonalSizeMismatch 'i' 3 2) :=
  ⟨by decide, by decide,
    einsum_diagonal_size_mismatch 'i' 2 3 .int64 (fun _ => 0) (by decide) (by decide)⟩

/-- C2: for every square rank-2 tensor of side `n ≥ 1`, `einsum("ii->i", x)`
returns the rank-1 tensor of length `n` holding the main diagonal of `x`. -/
theorem einsum_diagonal_correct (n : Nat) (hn : 1 ≤ n) (d : DType)
    (f : List Nat → Int) :
    ∃ r, einsum "ii->i" [⟨[n, n], d, f⟩] = .ok r ∧ r.shape = [n] ∧
      ∀ q, q < n → r.entry [q] = f [q, q] := by
  have hcsv : calc_single_view ⟨[n, n], d, f⟩ ['i', 'i'] =
      .ok ((⟨[n, n], d, f⟩ : NdArray).diagonal 1 0, ['i']) := by
    unfold calc_single_view
    simp [csv_outer, csv_inner, subscript_axes, pyFind, pyFindAux, firstDedup,
      firstDedupAux, normalize_axis_tuple, normalize_axis_list, normalize_axis,
      hasDup, List.range_succ, rollaxis, pyRemoveAt, pyIdx, List.count_cons,
      NdArray.ndim, NdArray.diagonal, removeTwo]
  have hstep : einsum "ii->i" [⟨[n, n], d, f⟩] =
      .ok ((⟨[n, n], d, f⟩ : NdArray).diagonal 1 0) := by
    unfold einsum
    simp [show parse_stage "ii->i" = .ok (['i', 'i'], ['i']) from rfl,
      show count_stage ['i', 'i'] 1 = .ok [['i', 'i']] from rfl,
      NdArray.ndim, hcsv, pipeline_stage, operand_stage, calc_summed_view,
      hasDupChar, calc_transposed_view, offset_of, List.range_succ]
  refine ⟨_, hstep, by simp [NdArray.diagonal, removeTwo], ?_⟩
  intro q hq
  rfl

/-- Witness for C2 at `n = 2` with entries `x[i,j] = 2*i + j`. -/
theorem einsum_diagonal_correct_witness :
    (1 : Nat) ≤ 2 ∧
      ∃ r, einsum "ii->i" [⟨[2, 2], .int64, fun idx => 2 * (idx.getD 0 0 : Int) + (idx.getD 1 0 : Int)⟩] = .ok r ∧
        r.shape = [2] ∧ ∀ q, q < 2 → r.entry [q] = 2 * (q : Int) + (q : Int) :=
  ⟨by decide,
    einsum_diagonal_correct 2 (by decide) .int64
      (fun idx => 2 * (idx.getD 0 0 : Int) + (idx.getD 1 0 : Int))⟩

/-- Membership is preserved into the first-occurrence dedup. -/
theorem mem_firstDedupAux (a : Char) : ∀ (l seen : List Char),
    a ∈ l → a ∉ seen → a ∈ firstDedupAux l seen
  | [], _, h, _ => absurd h (List.not_mem_nil a)
  | c :: rest, seen, h, hns => by
    unfold firstDedupAux
    by_cases hc : c ∈ seen
    · rw [if_pos hc]
      rcases List.mem_cons.mp h with rfl | hmem
      · exact absurd hc hns
      · exact mem_firstDedupAux a rest seen hmem hns
    · rw [if_neg hc]
      rcases List.mem_cons.mp h with rfl | hmem
      · exact List.mem_cons_self _ _
      · by_cases hac : a = c
        · exact hac ▸ List.mem_cons_self _ _
        · refine List.mem_cons_of_mem _ (mem_firstDedupAux a rest (c :: seen) hmem ?_)
          intro hm
          rcases List.mem_cons.mp hm with h' | h'
          · exact hac h'
          · exact hns h'

theorem mem_firstDedup (a : Char) (l : List Char) (h : a ∈ l) : a ∈ firstDedup l :=
  mem_firstDedupAux a l [] h (List.not_mem_nil a)

/-- C9 (amended): when the subscripts string reaches the explicit-output
checks with an output part containing the ellipsis marker at least twice,
and every output character also occurs in the input part (otherwise the
unknown-output-label check fires first), the call is rejected by the
duplicate-output-label check, because the internal marker `'@'` is counted
like an ordinary label (source lines 279-284). -/
theorem einsum_duplicate_output_ellipsis_rejected (s : String) (ops : List NdArray)
    (inp outp : List Char)
    (h0 : (s.toList.filter (· ≠ ' ')).find? (fun c => !(isAllowedChar c)) = none)
    (h1 : '.' ∉ replaceEllipsis (s.toList.filter (· ≠ ' ')))
    (h2 : grammarMatch (replaceEllipsis (s.toList.filter (· ≠ ' '))) = some (inp, some outp))
    (h3 : ∀ c ∈ outp, c ∈ inp)
    (h4 : 2 ≤ outp.count '@') :
    ∃ c, einsum s ops = .error (.duplicateOutputLabel c) := by
  have hfind1 : outp.find? (fun c => !decide (c ∈ inp)) = none :=
    List.find?_eq_none.mpr (fun x hx => by simp [h3 x hx])
  have hat : '@' ∈ firstDedup outp :=
    mem_firstDedup '@' outp (List.count_pos_iff.mp (by omega))
  unfold einsum parse_stage
  simp only [h0, h1, h2, hfind1, if_false, decide_False, Bool.false_eq_true,
    not_false_eq_true]
  cases hfd : (firstDedup outp).find? (fun c => !decide (outp.count c = 1)) with
  | none =>
    exfalso
    have h5 := List.find?_eq_none.mp hfd '@' hat
    simp at h5
    omega
  | some c =>
    simp only [hfd]
    exact ⟨c, rfl⟩

/-- Witness for C9 at the claim's example `"i...j->...i..."`. -/
theorem einsum_duplicate_output_ellipsis_rejected_witness :
    (("i...j->...i...".toList.filter (· ≠ ' ')).find? (fun c => !(isAllowedChar c)) = none) ∧
      ('.' ∉ replaceEllipsis ("i...j->...i...".toList.filter (· ≠ ' '))) ∧
      (grammarMatch (replaceEllipsis ("i...j->...i...".toList.filter (· ≠ ' '))) =
        some ("i@j".toList, some "@i@".toList)) ∧
      (∀ c ∈ "@i@".toList, c ∈ "i@j".toList) ∧ 2 ≤ "@i@".toList.count '@' ∧
      ∃ c, einsum "i...j->...i..." [] = .error (.duplicateOutputLabel c) :=
  ⟨by decide, by decide, by decide, by decide, by decide,
    einsum_duplicate_output_ellipsis_rejected "i...j->...i..." [] "i@j".toList
      "@i@".toList (by decide) (by decide) (by decide) (by decide) (by decide)⟩

/-- Elements produced by the dedup never come from the `seen` accumulator. -/
theorem firstDedupAux_not_mem_seen (a : Char) : ∀ (l seen : List Char),
    a ∈ firstDedupAux l seen → a ∉ seen
  | [], _, h => absurd h (List.not_mem_nil a)
  | c :: rest, seen, h => by
    unfold firstDedupAux at h
    by_cases hc : c ∈ seen
    · rw [if_pos hc] at h
      exact firstDedupAux_not_mem_seen a rest seen h
    · rw [if_neg hc] at h
      rcases List.mem_cons.mp h with rfl | hmem
      · exact hc
      · intro hin
        exact firstDedupAux_not_mem_seen a rest (c :: seen) hmem (List.mem_cons_of_mem c hin)

theorem nodup_firstDedupAux : ∀ (l seen : List Char), (firstDedupAux l seen).Nodup
  | [], _ => List.nodup_nil
  | c :: rest, seen => by
    unfold firstDedupAux
    by_cases hc : c ∈ seen
    · rw [if_pos hc]
      exact nodup_firstDedupAux rest seen
    · rw [if_neg hc]
      refine List.nodup_cons.mpr ⟨?_, nodup_firstDedupAux rest (c :: seen)⟩
      intro hmem
      exact firstDedupAux_not_mem_seen c rest (c :: seen) hmem (List.mem_cons_self c seen)

theorem firstDedupAux_subset (a : Char) : ∀ (l seen : List Char),
    a ∈ firstDedupAux l seen → a ∈ l
  | [], _, h => absurd h (List.not_mem_nil a)
  | c :: rest, seen, h => by
    unfold firstDedupAux at h
    by_cases hc : c ∈ seen
    · rw [if_pos hc] at h
      exact List.mem_cons_of_mem c (firstDedupAux_subset a rest seen h)
    · rw [if_neg hc] at h
      rcases List.mem_cons.mp h with rfl | hmem
      · exact List.mem_cons_self a rest
      · exact List.mem_cons_of_mem c (firstDedupAux_subset a rest (c :: seen) hmem)

/-- ASCII A-Z. -/
def isUpperAZ (c : Char) : Bool := 'A' ≤ c && c ≤ 'Z'

/-- ASCII a-z. -/
def isLowerAZ (c : Char) : Bool := 'a' ≤ c && c ≤ 'z'

/-- C10: in implicit-output mode, when the input part contains an ellipsis,
the inferred output subscript is the ellipsis marker followed by the free
labels in strictly increasing character-code order; in particular no
lowercase free label ever precedes an uppercase one (source lines 292-295,
since `'@' = 0x40` sorts below `'A' = 0x41`, which sorts below
`'a' = 0x61`). -/
theorem implicit_output_ellipsis_first_sorted (inp : List Char)
    (h1 : '@' ∈ inp)
    (h2 : ∀ c ∈ inp, c = '@' ∨ c = ',' ∨ isAsciiLetter c = true) :
    ∃ frees, implicit_output inp = '@' :: frees ∧ '@' ∉ frees ∧
      frees.Pairwise (· < ·) ∧
      frees.Pairwise (fun x y => ¬(isLowerAZ x = true ∧ isUpperAZ y = true)) := by
  have himp : implicit_output inp =
      List.insertionSort (fun a b => a ≤ b)
        ((firstDedup (inp.filter (· ≠ ','))).filter
          (fun c => c ∉ get_dummy_labels (inp.filter (· ≠ ',')))) := rfl
  set base := (firstDedup (inp.filter (· ≠ ','))).filter
    (fun c => c ∉ get_dummy_labels (inp.filter (· ≠ ','))) with hbase
  set s := List.insertionSort (fun a b => a ≤ b) base with hs
  have hsorted : s.Pairwise (fun a b => a ≤ b) := List.sorted_insertionSort _ base
  have hperm : s.Perm base := List.perm_insertionSort _ base
  have hnodup : s.Nodup := hperm.nodup_iff.mpr ((nodup_firstDedupAux _ []).filter _)
  have hmem_s : ∀ c ∈ s, c ∈ inp ∧ c ≠ ',' := by
    intro c hc
    have hcb : c ∈ base := hperm.subset hc
    have hcll : c ∈ inp.filter (· ≠ ',') :=
      firstDedupAux_subset c _ [] (List.mem_of_mem_filter hcb)
    refine ⟨List.mem_of_mem_filter hcll, ?_⟩
    have := List.of_mem_filter hcll
    simpa using this
  have hat_s : '@' ∈ s := by
    apply hperm.mem_iff.mpr
    apply List.mem_filter.mpr
    refine ⟨mem_firstDedup _ _ (List.mem_filter.mpr ⟨h1, by decide⟩), ?_⟩
    simp [get_dummy_labels, List.mem_filter]
  have hge : ∀ c ∈ s, '@' ≤ c := by
    intro c hc
    rcases h2 c (hmem_s c hc).1 with rfl | hcomma | hletter
    · exact le_refl _
    · exact absurd hcomma (hmem_s c hc).2
    · rcases (by simpa [isAsciiLetter] using hletter :
          ('a' ≤ c ∧ c ≤ 'z') ∨ ('A' ≤ c ∧ c ≤ 'Z')) with ⟨h', _⟩ | ⟨h', _⟩
      · exact le_trans (by decide) h'
      · exact le_trans (by decide) h'
  have hlt : s.Pairwise (· < ·) :=
    (hsorted.and hnodup).imp (fun h => lt_of_le_of_ne h.1 h.2)
  obtain ⟨hd, tl, hcons⟩ : ∃ hd tl, s = hd :: tl := by
    cases hsl : s with
    | nil => rw [hsl] at hat_s; exact absurd hat_s (List.not_mem_nil _)
    | cons a t => exact ⟨a, t, rfl⟩
  have hhd : hd = '@' := by
    rcases List.mem_cons.mp (hcons ▸ hat_s) with h | h
    · exact h.symm
    · by_contra _
      have hpl : (hd :: tl).Pairwise (· < ·) := hcons ▸ hlt
      have hlt2 : hd < '@' := (List.pairwise_cons.mp hpl).1 '@' h
      have hge2 : '@' ≤ hd := hge hd (hcons ▸ List.mem_cons_self hd tl)
      exact absurd hlt2 (not_lt.mpr hge2)
  have hpl : ('@' :: tl).Pairwise (· < ·) := hhd ▸ hcons ▸ hlt
  refine ⟨tl, by rw [himp, hcons, hhd], ?_, ?_, ?_⟩
  · have : ('@' :: tl).Nodup := hhd ▸ hcons ▸ hnodup
    exact (List.nodup_cons.mp this).1
  · exact (List.pairwise_cons.mp hpl).2
  · refine ((List.pairwise_cons.mp hpl).2).imp ?_
    intro a b hab
    rintro ⟨hla, hub⟩
    have h1' : ('a' : Char) ≤ a := by
      have := (by simpa [isLowerAZ] using hla : ('a' ≤ a ∧ a ≤ 'z'))
      exact this.1
    have h2' : b ≤ ('Z' : Char) := by
      have := (by simpa [isUpperAZ] using hub : ('A' ≤ b ∧ b ≤ 'Z'))
      exact this.2
    have : a < ('a' : Char) := lt_of_lt_of_le hab (le_trans h2' (by decide))
    exact absurd this (not_lt.mpr h1')

/-- Witness for C10 at the concrete input part `"Bi@,@jA"`. -/
theorem implicit_output_ellipsis_first_sorted_witness :
    ('@' ∈ "Bi@,@jA".toList ∧
      ∀ c ∈ "Bi@,@jA".toList, c = '@' ∨ c = ',' ∨ isAsciiLetter c = true) ∧
    ∃ frees, implicit_output "Bi@,@jA".toList = '@' :: frees ∧ '@' ∉ frees ∧
      frees.Pairwise (· < ·) ∧
      frees.Pairwise (fun x y => ¬(isLowerAZ x = true ∧ isUpperAZ y = true)) :=
  ⟨⟨by decide, by decide⟩,
    implicit_output_ellipsis_first_sorted "Bi@,@jA".toList (by decide) (by decide)⟩

/-- `hasDup` decides `Nodup` (negatively). -/
theorem hasDup_eq_false_iff : ∀ l : List Nat, hasDup l = false ↔ l.Nodup
  | [] => by simp [hasDup]
  | x :: xs => by
    simp [hasDup, hasDup_eq_false_iff xs, List.nodup_cons]

/-- `normalize_axis_list` preserves length. -/
theorem normalize_axis_list_length : ∀ (l : List Int) (nd : Nat) (xs : List Nat),
    normalize_axis_list l nd = .ok xs → l.length = xs.length
  | [], _, xs, h => by
    cases h
    rfl
  | a :: rest, nd, xs, h => by
    unfold normalize_axis_list at h
    cases hn : normalize_axis a nd with
    | error e => rw [hn] at h; cases h
    | ok x =>
      rw [hn] at h
      cases hr : normalize_axis_list rest nd with
      | error e => rw [hr] at h; cases h
      | ok ys =>
        rw [hr] at h
        cases h
        simp [normalize_axis_list_length rest nd ys hr]

/-- Resolution of one ellipsis-relative axis offset: for `i < len ≤ ndim`,
the (possibly negative) offset produced by `offset_of` normalizes to the
direct axis position `i` (before the ellipsis) or `ndim + i - len` (at or
after it). -/
theorem normalize_offset_of (ep : Int) (len ndim i : Nat)
    (hlen : len ≤ ndim) (hi : i < len) :
    normalize_axis (offset_of ep len i) ndim =
      .ok (if ep = -1 ∨ (i : Int) < ep then i else ndim + i - len) := by
  unfold offset_of normalize_axis
  by_cases hc : ep = -1 ∨ (i : Int) < ep
  · rw [if_pos hc, if_pos hc, if_pos (by constructor <;> omega)]
    simp
  · rw [if_neg hc, if_neg hc, if_neg (by omega), if_pos (by constructor <;> omega)]
    congr 1
    omega

/-- The whole summed-axes list (source lines 83-90) normalizes without
error to the direct non-negative axis positions. -/
theorem normalize_summed_axes (P : Nat → Prop) [DecidablePred P] (ep : Int)
    (len ndim : Nat) (hlen : len ≤ ndim) :
    ∀ is : List Nat, (∀ i ∈ is, i < len) →
      normalize_axis_list
        (is.filterMap (fun i => if P i then some (offset_of ep len i) else none)) ndim
        = .ok (is.filterMap (fun i =>
            if P i then some (if ep = -1 ∨ (i : Int) < ep then i else ndim + i - len)
            else none))
  | [], _ => rfl
  | i :: is, h => by
    have hi : i < len := h i (List.mem_cons_self i is)
    have ih := normalize_summed_axes P ep len ndim hlen is
      (fun j hj => h j (List.mem_cons_of_mem i hj))
    by_cases hp : P i
    · simp only [List.filterMap_cons, if_pos hp]
      unfold normalize_axis_list
      rw [normalize_offset_of ep len ndim i hlen hi, ih]
    · simp only [List.filterMap_cons, if_neg hp]
      exact ih

/-- The resolved axis positions are strictly increasing along the index
list, hence duplicate-free. -/
theorem pairwise_summed_axes (P : Nat → Prop) [DecidablePred P] (ep : Int)
    (len ndim : Nat) (hlen : len ≤ ndim) :
    ∀ is : List Nat, is.Pairwise (· < ·) → (∀ i ∈ is, i < len) →
      (is.filterMap (fun i =>
          if P i then some (if ep = -1 ∨ (i : Int) < ep then i else ndim + i - len)
          else none)).Pairwise (· < ·)
  | [], _, _ => List.Pairwise.nil
  | i :: is, hp, h => by
    have hi : i < len := h i (List.mem_cons_self i is)
    obtain ⟨hhead, htail⟩ := List.pairwise_cons.mp hp
    have ih := pairwise_summed_axes P ep len ndim hlen is htail
      (fun j hj => h j (List.mem_cons_of_mem i hj))
    by_cases hpi : P i
    · simp only [List.filterMap_cons, if_pos hpi]
      refine List.pairwise_cons.mpr ⟨?_, ih⟩
      intro y hy
      obtain ⟨j, hj, hjy⟩ := List.mem_filterMap.mp hy
      have hij : i < j := hhead j hj
      have hjlen : j < len := h j (List.mem_cons_of_mem i hj)
      by_cases hpj : P j
      · rw [if_pos hpj] at hjy
        injection hjy with hjy
        subst hjy
        split <;> split <;> omega
      · rw [if_neg hpj] at hjy
        cases hjy
    · simp only [List.filterMap_cons, if_neg hpi]
      exact ih

/-- Folding label-removal over a list of labels removes exactly the members
of that list (source lines 97-98). -/
theorem foldl_filter_not_mem : ∀ (L s : List Char),
    L.foldl (fun s c => s.filter (· ≠ c)) s = s.filter (fun c => c ∉ L)
  | [], s => by simp
  | a :: L, s => by
    rw [List.foldl_cons, foldl_filter_not_mem L (s.filter (· ≠ a)), List.filter_filter]
    apply List.filter_congr
    intro x _
    simp only [List.mem_cons, not_or, decide_not]
    by_cases hxa : x = a <;> by_cases hxL : x ∈ L <;> simp [hxa, hxL]

/-- Direct (non-negative) positions of the axes `calc_summed_view` must
sum: the positions of the non-ellipsis labels of `inS` absent from `outS`,
counted from the left before the ellipsis and from the right end of the
operand at or after it. -/
def summed_axes_direct (ndim : Nat) (inS outS : List Char) : List Nat :=
  (List.range (inS.filter (· ≠ '@')).length).filterMap (fun i =>
    if (inS.filter (· ≠ '@')).getD i ' ' ∉ outS then
      some (if pyFind inS '@' = -1 ∨ (i : Int) < pyFind inS '@' then i
            else ndim + i - (inS.filter (· ≠ '@')).length)
    else none)

/-- Mathematical simultaneous sum of an operand over a set of distinct
in-range axes, realized highest-axis-first. -/
def sum_over_axes (op : NdArray) (axes : List Nat) : NdArray :=
  (List.insertionSort (fun x y => y ≤ x) axes).foldl (fun t ax => t.sumAxis ax) op

/-- C7: under the duplicate-free and subset preconditions (the function's
`assert`s) and the pipeline's rank invariant, `calc_summed_view` succeeds,
sums the operand along exactly the axes of the non-ellipsis labels present
in the input subscript but absent from the output subscript (resolving the
ellipsis-relative negative offsets to direct positions), returns a result
carrying the operand's original dtype, removes exactly the summed labels
from the subscript, and returns the operand itself unchanged when there is
nothing to sum. -/
theorem calc_summed_view_spec (op : NdArray) (inS outS : List Char)
    (h1 : hasDupChar inS = false) (h2 : hasDupChar outS = false)
    (h3 : ∀ c ∈ outS, c ∈ inS)
    (h4 : if '@' ∈ inS then (inS.filter (· ≠ '@')).length ≤ op.ndim
          else inS.length = op.ndim) :
    ∃ r, calc_summed_view op inS outS =
        .ok (r, inS.filter (fun c => c = '@' ∨ c ∈ outS)) ∧
      r.dtype = op.dtype ∧
      r = (sum_over_axes op (summed_axes_direct op.ndim inS outS)).astype op.dtype ∧
      ((∀ c ∈ inS.filter (· ≠ '@'), c ∈ outS) → r = op) := by
  classical
  have hlen : (inS.filter (· ≠ '@')).length ≤ op.ndim := by
    by_cases hm : '@' ∈ inS
    · simpa [hm] using h4
    · have heq : inS.filter (· ≠ '@') = inS :=
        List.filter_eq_self.mpr (fun a ha => by
          simp only [decide_eq_true_eq]
          exact fun h => hm (h ▸ ha))
      rw [heq]
      simp only [hm, if_false] at h4
      omega
  have hall : outS.all (fun c => decide (c ∈ inS)) = true :=
    List.all_eq_true.mpr (fun x hx => by simpa using h3 x hx)
  -- the guard used by the source (membership in label_to_summed) agrees
  -- with direct non-membership in the output subscript
  have hguard : ∀ i ∈ List.range (inS.filter (· ≠ '@')).length,
      (if (inS.filter (· ≠ '@')).getD i ' ' ∈
            (inS.filter (· ≠ '@')).filter (· ∉ outS) then
         some (offset_of (pyFind inS '@') (inS.filter (· ≠ '@')).length i)
       else none)
      = (if (inS.filter (· ≠ '@')).getD i ' ' ∉ outS then
           some (offset_of (pyFind inS '@') (inS.filter (· ≠ '@')).length i)
         else none) := by
    intro i hi
    have hi' : i < (inS.filter (· ≠ '@')).length := List.mem_range.mp hi
    have hmem : (inS.filter (· ≠ '@')).getD i ' ' ∈ inS.filter (· ≠ '@') := by
      rw [List.getD_eq_getElem _ _ hi']
      exact List.getElem_mem hi'
    by_cases ho : (inS.filter (· ≠ '@')).getD i ' ' ∈ outS
    · have hnotsummed : (inS.filter (· ≠ '@')).getD i ' ' ∉
          (inS.filter (· ≠ '@')).filter (· ∉ outS) := by
        intro hc
        have h5 := (List.mem_filter.mp hc).2
        simp only [decide_eq_true_eq] at h5
        exact h5 ho
      rw [if_neg hnotsummed, if_neg (not_not.mpr ho)]
    · rw [if_pos (List.mem_filter.mpr ⟨hmem, by simpa using ho⟩), if_pos ho]
  have hax : (List.range (inS.filter (· ≠ '@')).length).filterMap (fun i =>
        if (inS.filter (· ≠ '@')).getD i ' ' ∈
             (inS.filter (· ≠ '@')).filter (· ∉ outS) then
          some (offset_of (pyFind inS '@') (inS.filter (· ≠ '@')).length i)
        else none)
      = (List.range (inS.filter (· ≠ '@')).length).filterMap (fun i =>
        if (inS.filter (· ≠ '@')).getD i ' ' ∉ outS then
          some (offset_of (pyFind inS '@') (inS.filter (· ≠ '@')).length i)
        else none) := List.filterMap_congr hguard
  have hnorm : normalize_axis_list
      ((List.range (inS.filter (· ≠ '@')).length).filterMap (fun i =>
        if (inS.filter (· ≠ '@')).getD i ' ' ∉ outS then
          some (offset_of (pyFind inS '@') (inS.filter (· ≠ '@')).length i)
        else none)) op.ndim
      = .ok (summed_axes_direct op.ndim inS outS) :=
    normalize_summed_axes _ (pyFind inS '@') _ op.ndim hlen _
      (fun j hj => List.mem_range.mp hj)
  have hnodup : hasDup (summed_axes_direct op.ndim inS outS) = false :=
    (hasDup_eq_false_iff _).mpr
      ((pairwise_summed_axes _ (pyFind inS '@') _ op.ndim hlen _
          (List.pairwise_lt_range _) (fun j hj => List.mem_range.mp hj)).imp
        (fun h => Nat.ne_of_lt h))
  have hsub : ((inS.filter (· ≠ '@')).filter (· ∉ outS)).foldl
        (fun s c => s.filter (· ≠ c)) inS
      = inS.filter (fun c => c = '@' ∨ c ∈ outS) := by
    rw [foldl_filter_not_mem]
    apply List.filter_congr
    intro x hx
    rw [decide_eq_decide]
    constructor
    · intro hnm
      by_cases hc : x = '@'
      · exact Or.inl hc
      · by_cases ho : x ∈ outS
        · exact Or.inr ho
        · exact absurd (List.mem_filter.mpr
            ⟨List.mem_filter.mpr ⟨hx, by simpa using hc⟩, by simpa using ho⟩) hnm
    · rintro (rfl | ho) hm
      · have h5 := List.mem_filter.mp hm
        have h6 := List.mem_filter.mp h5.1
        simp at h6
      · have h5 := List.mem_filter.mp hm
        simp only [decide_eq_true_eq] at h5
        exact h5.2 ho
  refine ⟨(sum_over_axes op (summed_axes_direct op.ndim inS outS)).astype op.dtype,
    ?_, rfl, rfl, ?_⟩
  · unfold calc_summed_view
    rw [h1, h2, hall]
    simp only [Bool.false_eq_true, if_false, not_true, ite_false]
    rw [hax]
    by_cases hempty : ((List.range (inS.filter (· ≠ '@')).length).filterMap (fun i =>
        if (inS.filter (· ≠ '@')).getD i ' ' ∉ outS then
          some (offset_of (pyFind inS '@') (inS.filter (· ≠ '@')).length i)
        else none)).isEmpty
    · rw [if_pos hempty]
      have hdirectnil : summed_axes_direct op.ndim inS outS = [] := by
        have hlen0 := normalize_axis_list_length _ _ _ hnorm
        have := List.isEmpty_iff.mp hempty
        rw [this] at hlen0
        exact List.eq_nil_of_length_eq_zero hlen0.symm
      rw [hsub, hdirectnil]
      rfl
    · rw [if_neg hempty]
      unfold NdArray.sum normalize_axis_tuple
      rw [hnorm]
      simp only [hnodup, Bool.false_eq_true, if_false, ite_false]
      rw [hsub]
      rfl
  · intro hid
    have hdirect : summed_axes_direct op.ndim inS outS = [] := by
      apply List.filterMap_eq_nil_iff.mpr
      intro i hi
      have hi' : i < (inS.filter (· ≠ '@')).length := List.mem_range.mp hi
      have hmem : (inS.filter (· ≠ '@')).getD i ' ' ∈ inS.filter (· ≠ '@') := by
        rw [List.getD_eq_getElem _ _ hi']
        exact List.getElem_mem hi'
      rw [if_neg (not_not.mpr (hid _ hmem))]
    rw [hdirect]
    rfl

/-- Witness for C7 at operand shape (2,3), input subscript `"ij"`, output
subscript `"i"` (the row-sum case of the spec). -/
theorem calc_summed_view_spec_witness :
    (hasDupChar ['i', 'j'] = false ∧ hasDupChar ['i'] = false ∧
      (∀ c ∈ (['i'] : List Char), c ∈ (['i', 'j'] : List Char)) ∧
      (if '@' ∈ (['i', 'j'] : List Char) then
        ((['i', 'j'] : List Char).filter (· ≠ '@')).length ≤
          (⟨[2, 3], .int64, fun _ => 1⟩ : NdArray).ndim
       else (['i', 'j'] : List Char).length = (⟨[2, 3], .int64, fun _ => 1⟩ : NdArray).ndim)) ∧
    ∃ r, calc_summed_view ⟨[2, 3], .int64, fun _ => 1⟩ ['i', 'j'] ['i'] =
        .ok (r, (['i', 'j'] : List Char).filter (fun c => c = '@' ∨ c ∈ (['i'] : List Char))) ∧
      r.dtype = (⟨[2, 3], .int64, fun _ => 1⟩ : NdArray).dtype ∧
      r = (sum_over_axes ⟨[2, 3], .int64, fun _ => 1⟩
            (summed_axes_direct (⟨[2, 3], .int64, fun _ => 1⟩ : NdArray).ndim
              ['i', 'j'] ['i'])).astype (⟨[2, 3], .int64, fun _ => 1⟩ : NdArray).dtype ∧
      ((∀ c ∈ (['i', 'j'] : List Char).filter (· ≠ '@'), c ∈ (['i'] : List Char)) →
        r = ⟨[2, 3], .int64, fun _ => 1⟩) :=
  ⟨⟨by decide, by decide, by decide, by decide⟩,
    calc_summed_view_spec ⟨[2, 3], .int64, fun _ => 1⟩ ['i', 'j'] ['i']
      (by decide) (by decide) (by decide) (by decide)⟩

/-! ### Row-major index arithmetic, towards the combiner claims -/

/-- A multi-index is in range for a shape. -/
def validIdx : List Nat → List Nat → Prop
  | [], [] => True
  | i :: is, s :: ss => i < s ∧ validIdx is ss
  | _, _ => False

theorem validIdx_length : ∀ (idx s : List Nat), validIdx idx s → idx.length = s.length
  | [], [], _ => rfl
  | i :: is, x :: ss, h => by
    simp [validIdx] at h
    simp [validIdx_length is ss h.2]
  | [], _ :: _, h => absurd h (by simp [validIdx])
  | _ :: _, [], h => absurd h (by simp [validIdx])

theorem get_pi_append : ∀ s1 s2 : List Nat, get_pi (s1 ++ s2) = get_pi s1 * get_pi s2
  | [], s2 => by simp [get_pi]
  | a :: s1, s2 => by
    simp [get_pi, get_pi_append s1 s2]
    ring

theorem ravel_lt : ∀ (idx s : List Nat), validIdx idx s → ravel s idx < get_pi s
  | [], [], _ => by simp [ravel, get_pi]
  | i :: is, x :: ss, h => by
    obtain ⟨h1, h2⟩ := h
    have hrec := ravel_lt is ss h2
    show i * get_pi ss + ravel ss is < x * get_pi ss
    calc i * get_pi ss + ravel ss is < i * get_pi ss + get_pi ss := by omega
      _ = (i + 1) * get_pi ss := by ring
      _ ≤ x * get_pi ss := Nat.mul_le_mul_right _ h1
  | [], _ :: _, h => absurd h (by simp [validIdx])
  | _ :: _, [], h => absurd h (by simp [validIdx])

theorem get_pi_pos (idx s : List Nat) (h : validIdx idx s) : 0 < get_pi s :=
  Nat.lt_of_le_of_lt (Nat.zero_le _) (ravel_lt idx s h)

theorem unravel_ravel : ∀ (idx s : List Nat), validIdx idx s →
    unravel s (ravel s idx) = idx
  | [], [], _ => rfl
  | i :: is, x :: ss, h => by
    obtain ⟨h1, h2⟩ := h
    have hlt := ravel_lt is ss h2
    have hpos := get_pi_pos is ss h2
    show (i * get_pi ss + ravel ss is) / get_pi ss ::
        unravel ss ((i * get_pi ss + ravel ss is) % get_pi ss) = i :: is
    rw [Nat.mul_comm i (get_pi ss), Nat.mul_add_div hpos, Nat.mul_add_mod,
      Nat.div_eq_of_lt hlt, Nat.mod_eq_of_lt hlt, Nat.add_zero,
      unravel_ravel is ss h2]
  | [], _ :: _, h => absurd h (by simp [validIdx])
  | _ :: _, [], h => absurd h (by simp [validIdx])

theorem ravel_append : ∀ (s1 i1 s2 i2 : List Nat), i1.length = s1.length →
    ravel (s1 ++ s2) (i1 ++ i2) = ravel s1 i1 * get_pi s2 + ravel s2 i2
  | [], [], s2, i2, _ => by simp [ravel]
  | x :: s1, i :: i1, s2, i2, h => by
    show i * get_pi (s1 ++ s2) + ravel (s1 ++ s2) (i1 ++ i2) = _
    rw [ravel_append s1 i1 s2 i2 (by simpa using h), get_pi_append]
    show _ = (i * get_pi s1 + ravel s1 i1) * get_pi s2 + ravel s2 i2
    ring
  | [], _ :: _, _, _, h => by simp at h
  | _ :: _, [], _, _, h => by simp at h

theorem sumTo_one (f : Nat → Int) : sumTo 1 f = f 0 := by
  simp [sumTo, List.range_succ]

theorem sumTo_congr (n : Nat) (f g : Nat → Int) (h : ∀ t, t < n → f t = g t) :
    sumTo n f = sumTo n g := by
  unfold sumTo
  congr 1
  apply List.map_congr_left
  intro x hx
  exact h x (List.mem_range.mp hx)

theorem ravel_010 (G w : Nat) : ravel [1, G, 1] [0, w, 0] = w := by
  simp [ravel, get_pi]

theorem ravel_001 (G w : Nat) : ravel [1, 1, G] [0, 0, w] = w := by
  simp [ravel, get_pi]

theorem unravel_1G1 (G w : Nat) (h : w < G) : unravel [1, G, 1] w = [0, w, 0] := by
  simp [unravel, get_pi, Nat.div_eq_of_lt h, Nat.mod_eq_of_lt h, Nat.mod_one]

theorem unravel_11G (G w : Nat) (h : w < G) : unravel [1, 1, G] w = [0, 0, w] := by
  simp [unravel, get_pi, Nat.div_eq_of_lt h, Nat.mod_eq_of_lt h]

theorem unravel_1ab (a b u v : Nat) (hu : u < a) (hv : v < b) :
    unravel [1, a, b] (u * b + v) = [0, u, v] := by
  have hb : 0 < b := Nat.lt_of_le_of_lt (Nat.zero_le _) hv
  have hw : u * b + v < a * b := by
    calc u * b + v < u * b + b := by omega
      _ = (u + 1) * b := by ring
      _ ≤ a * b := Nat.mul_le_mul_right _ hu
  have h1 : u * b + v < a * (b * 1) := by simpa using hw
  show (u * b + v) / (a * (b * 1)) ::
      ((u * b + v) % (a * (b * 1)) / (b * 1) ::
        ((u * b + v) % (a * (b * 1)) % (b * 1) / 1 ::
          unravel [] ((u * b + v) % (a * (b * 1)) % (b * 1) % 1))) = [0, u, v]
  rw [Nat.div_eq_of_lt h1, Nat.mod_eq_of_lt h1]
  simp only [Nat.mul_one, Nat.div_one, unravel]
  rw [Nat.mul_comm u b, Nat.mul_add_div hb, Nat.mul_add_mod,
    Nat.div_eq_of_lt hv, Nat.mod_eq_of_lt hv, Nat.add_zero]

/-- Successful reshape, in closed form. -/
theorem reshape_ok (t : NdArray) (ns : List Nat) (h : get_pi ns = get_pi t.shape) :
    t.reshape ns = .ok ⟨ns, t.dtype, fun idx => t.entry (unravel t.shape (ravel ns idx))⟩ := by
  unfold NdArray.reshape
  rw [if_pos h]

/-- The combiner on two ellipsis-free operands produces their outer
product: concatenated subscript, concatenated shape, product entries. -/
theorem calc_combined_view_two (A B : NdArray) (s1 s2 : List Char)
    (h1 : s1.headD ' ' ≠ '@') (h2 : s2.headD ' ' ≠ '@')
    (h3 : '@' ∉ s1) (h4 : '@' ∉ s2) :
    ∃ T, calc_combined_view [(A, s1), (B, s2)] = .ok (T, s1 ++ s2) ∧
      T.shape = A.shape ++ B.shape ∧
      ∀ idxA idxB, validIdx idxA A.shape → validIdx idxB B.shape →
        T.entry (idxA ++ idxB) = A.entry idxA * B.entry idxB := by
  have hd1 : (s1.headD ' ' = '@') = False := eq_false h1
  have hd2 : (s2.headD ' ' = '@') = False := eq_false h2
  have hmain : calc_combined_view [(A, s1), (B, s2)] =
      .ok (⟨A.shape ++ B.shape, A.dtype, fun idx =>
        match unravel [1, get_pi A.shape, get_pi B.shape]
            (ravel [1, get_pi A.shape * get_pi B.shape, 1]
              (unravel [1, get_pi A.shape * get_pi B.shape, 1]
                (ravel (A.shape ++ B.shape) idx))) with
        | [s, i, j] =>
          sumTo 1 fun t =>
            A.entry (unravel A.shape (ravel [1, 1, get_pi A.shape]
              (unravel [1, 1, get_pi A.shape] (ravel [1, get_pi A.shape, 1] [0, i, t])))) *
            B.entry (unravel B.shape (ravel [1, 1, get_pi B.shape] [0, t, j]))
        | _ => 0⟩, s1 ++ s2) := by
    simp only [calc_combined_view, foldCombine, combine_step, NdArray.reshape,
      matmul, NdArray.ndim, hd1, hd2, if_false, if_true, ite_true, ite_false,
      get_pi, get_pi_append, List.getD_cons_zero, List.getD_cons_succ,
      List.flatten, List.mem_append, h3, h4, List.append_nil,
      List.nil_append, one_mul, mul_one, Nat.max_self, or_self, eq_self_iff_true,
      and_self, or_true, true_or, and_true, true_and, Bool.false_eq_true]
  refine ⟨_, hmain, rfl, ?_⟩
  intro idxA idxB hva hvb
  have hu := ravel_lt idxA A.shape hva
  have hv := ravel_lt idxB B.shape hvb
  show (match unravel [1, get_pi A.shape, get_pi B.shape]
      (ravel [1, get_pi A.shape * get_pi B.shape, 1]
        (unravel [1, get_pi A.shape * get_pi B.shape, 1]
          (ravel (A.shape ++ B.shape) (idxA ++ idxB)))) with
    | [s, i, j] =>
      sumTo 1 fun t =>
        A.entry (unravel A.shape (ravel [1, 1, get_pi A.shape]
          (unravel [1, 1, get_pi A.shape] (ravel [1, get_pi A.shape, 1] [0, i, t])))) *
        B.entry (unravel B.shape (ravel [1, 1, get_pi B.shape] [0, t, j]))
    | _ => 0) = A.entry idxA * B.entry idxB
  rw [ravel_append A.shape idxA B.shape idxB (validIdx_length idxA A.shape hva)]
  have hwlt : ravel A.shape idxA * get_pi B.shape + ravel B.shape idxB <
      get_pi A.shape * get_pi B.shape := by
    calc ravel A.shape idxA * get_pi B.shape + ravel B.shape idxB
        < ravel A.shape idxA * get_pi B.shape + get_pi B.shape := by omega
      _ = (ravel A.shape idxA + 1) * get_pi B.shape := by ring
      _ ≤ get_pi A.shape * get_pi B.shape := Nat.mul_le_mul_right _ hu
  rw [unravel_1G1 _ _ hwlt, ravel_010, unravel_1ab _ _ _ _ hu hv]
  simp only [sumTo_one]
  rw [ravel_010, unravel_11G _ _ hu, ravel_001, unravel_ravel idxA A.shape hva,
    ravel_001, unravel_ravel idxB B.shape hvb]

/-- C3: `einsum("ij,jk", a, b)` with no explicit output equals
`einsum("ij,jk->ik", a, b)` — implicit mode infers the output `"ik"` from
the sorted once-occurring labels — and both return the matrix product of
`a` and `b`. -/
theorem einsum_implicit_matmul_correct (m n k : Nat) (da db : DType)
    (fa fb : List Nat → Int) :
    einsum "ij,jk" [⟨[m, n], da, fa⟩, ⟨[n, k], db, fb⟩] =
      einsum "ij,jk->ik" [⟨[m, n], da, fa⟩, ⟨[n, k], db, fb⟩] ∧
    ∃ r, einsum "ij,jk->ik" [⟨[m, n], da, fa⟩, ⟨[n, k], db, fb⟩] = .ok r ∧
      r.shape = [m, k] ∧
      ∀ i j, i < m → j < k →
        r.entry [i, j] = sumTo n (fun t => fa [i, t] * fb [t, j]) := by
  obtain ⟨T, hT, hTs, hTe⟩ := calc_combined_view_two ⟨[m, n], da, fa⟩ ⟨[n, k], db, fb⟩
    ['i', 'j'] ['j', 'k'] (by decide) (by decide) (by decide) (by decide)
  have hTs4 : T.shape = [m, n, n, k] := hTs
  have hnd : T.ndim = 4 := by simp [NdArray.ndim, hTs4]
  have hdnd : (T.diagonal 2 1).ndim = 3 := by
    simp [NdArray.ndim, NdArray.diagonal, removeTwo, hTs4]
  have hroll : rollaxis (T.diagonal 2 1) (-1) 1 =
      .ok ((T.diagonal 2 1).transpose [0, 2, 1]) := by
    unfold rollaxis
    rw [hdnd]
    rfl
  have hsingle : calc_single_view T ['i', 'j', 'j', 'k'] =
      .ok ((T.diagonal 2 1).transpose [0, 2, 1], ['i', 'j', 'k']) := by
    unfold calc_single_view
    rw [hnd]
    simp only [csv_outer, csv_inner, subscript_axes, pyFind, pyFindAux,
      firstDedup, firstDedupAux, normalize_axis_tuple, normalize_axis_list,
      normalize_axis, hasDup, List.range_succ, List.count_cons, List.count_nil,
      pyRemoveAt, pyIdx, hroll, hTs4, List.cons_append, List.nil_append,
      List.getD_cons_zero, List.getD_cons_succ, List.filter_cons,
      List.filter_nil, hdnd, hnd, List.head?_cons, Option.getD_some,
      List.tail_cons, List.reverse_cons, List.reverse_nil, List.append_nil]
    simp [hroll, hasDup, csv_inner, hTs4, pyRemoveAt, pyIdx, hdnd,
      List.getD_cons_zero, List.getD_cons_succ]
  set R1 := (T.diagonal 2 1).transpose [0, 2, 1] with hR1
  have hr1shape : R1.shape = [m, n, k] := by
    simp [hR1, NdArray.transpose, NdArray.diagonal, removeTwo, hTs4,
      NdArray.ndim]
  have hr1nd : R1.ndim = 3 := by simp [NdArray.ndim, hr1shape]
  have hsummed : calc_summed_view R1 ['i', 'j', 'k'] ['i', 'k'] =
      .ok ({ R1.sumAxis 1 with dtype := R1.dtype }, ['i', 'k']) := by
    unfold calc_summed_view NdArray.sum normalize_axis_tuple
    rw [hr1nd]
    rfl
  have hstage : einsum "ij,jk->ik" [⟨[m, n], da, fa⟩, ⟨[n, k], db, fb⟩] =
      (match (match calc_combined_view [(⟨[m, n], da, fa⟩, ['i', 'j']),
            (⟨[n, k], db, fb⟩, ['j', 'k'])] with
        | Except.error e => Except.error e
        | Except.ok (r, sub) => calc_single_view r sub) with
      | Except.error e => Except.error e
      | Except.ok (result, subscript) =>
        match calc_summed_view result subscript ['i', 'k'] with
        | Except.error e => Except.error e
        | Except.ok (r2, sub2) => calc_transposed_view r2 sub2 ['i', 'k']) := rfl
  have hfinal : einsum "ij,jk->ik" [⟨[m, n], da, fa⟩, ⟨[n, k], db, fb⟩] =
      .ok { R1.sumAxis 1 with dtype := R1.dtype } := by
    rw [hstage, hT]
    show (match calc_single_view T ['i', 'j', 'j', 'k'] with
      | Except.error e => Except.error e
      | Except.ok (result, subscript) =>
        match calc_summed_view result subscript ['i', 'k'] with
        | Except.error e => Except.error e
        | Except.ok (r2, sub2) => calc_transposed_view r2 sub2 ['i', 'k']) =
      Except.ok { R1.sumAxis 1 with dtype := R1.dtype }
    rw [hsingle]
    show (match calc_summed_view R1 ['i', 'j', 'k'] ['i', 'k'] with
      | Except.error e => Except.error e
      | Except.ok (r2, sub2) => calc_transposed_view r2 sub2 ['i', 'k']) =
      Except.ok { R1.sumAxis 1 with dtype := R1.dtype }
    rw [hsummed]
    rfl
  refine ⟨rfl, { R1.sumAxis 1 with dtype := R1.dtype }, hfinal, ?_, ?_⟩
  · show (R1.sumAxis 1).shape = [m, k]
    simp [NdArray.sumAxis, hr1shape]
  · intro i j hi hj
    show sumTo (R1.shape.getD 1 0) (fun t => R1.entry ([i, j].insertIdx 1 t)) =
      sumTo n (fun t => fa [i, t] * fb [t, j])
    rw [show R1.shape.getD 1 0 = n from by simp [hr1shape]]
    apply sumTo_congr
    intro t ht
    show R1.entry [i, t, j] = fa [i, t] * fb [t, j]
    show (T.diagonal 2 1).entry ((List.range (T.diagonal 2 1).ndim).map
      (fun q => [i, t, j].getD (List.indexOf q [0, 2, 1]) 0)) = fa [i, t] * fb [t, j]
    rw [hdnd]
    show T.entry [i, t, t, j] = fa [i, t] * fb [t, j]
    show T.entry ([i, t] ++ [t, j]) = fa [i, t] * fb [t, j]
    rw [hTe [i, t] [t, j] ⟨hi, ht, trivial⟩ ⟨ht, hj, trivial⟩]

/-- Witness for C3 at 2-by-2 matrices with entries given by the flat
offset. -/
theorem einsum_implicit_matmul_correct_witness :
    einsum "ij,jk" [⟨[2, 2], .int64, fun idx => (ravel [2, 2] idx : Int)⟩,
        ⟨[2, 2], .int64, fun idx => (ravel [2, 2] idx : Int)⟩] =
      einsum "ij,jk->ik" [⟨[2, 2], .int64, fun idx => (ravel [2, 2] idx : Int)⟩,
        ⟨[2, 2], .int64, fun idx => (ravel [2, 2] idx : Int)⟩] ∧
    ∃ r, einsum "ij,jk->ik" [⟨[2, 2], .int64, fun idx => (ravel [2, 2] idx : Int)⟩,
        ⟨[2, 2], .int64, fun idx => (ravel [2, 2] idx : Int)⟩] = .ok r ∧
      r.shape = [2, 2] ∧
      ∀ i j, i < 2 → j < 2 →
        r.entry [i, j] = sumTo 2 (fun t =>
          (ravel [2, 2] [i, t] : Int) * (ravel [2, 2] [t, j] : Int)) :=
  einsum_implicit_matmul_correct 2 2 2 .int64 .int64
    (fun idx => (ravel [2, 2] idx : Int)) (fun idx => (ravel [2, 2] idx : Int))

end CupyEinsum
